import Mathlib

/-!
# Verification of the earth-civilization-simulator orchestration core

A shallow embedding of the simulation core found under `backend/simulation_engine/`
and `backend/simulation-engine/` (WorldState serialization/migration/diffing,
SimulationOrchestrator engine registration and dependency-ordered initialization,
the EventBus publish/backpressure/dispatch logic with a single worker, and the
TickScheduler fast-forward/pause behaviour), together with proofs and
counterexamples for the specified properties.

Python values that the embedded code inspects are modelled by the inductive
`PyVal`: strings carry provenance (`isoStr n` is the ISO-8601 rendering of the
datetime whose timestamp is `n`, `uuidStr u` the string rendering of the UUID
`u`, `vstr` any other plain string that is not an ISO timestamp), datetimes and
UUIDs are abstracted by integer timestamps / numeric identifiers.  Distinct
constructors model Python values of distinct types, which are never `==` in
Python (e.g. a `uuid.UUID` is never equal to a `str`).  Raising code is
modelled with `Option`.
-/

set_option autoImplicit false

namespace EarthSim

/-- Model of the Python values flowing through the orchestration core. -/
inductive PyVal where
  /-- A plain Python `str` that is not the ISO rendering of a datetime. -/
  | vstr : String → PyVal
  /-- The Python `str` produced by `datetime.isoformat()` for the datetime
  with (abstract) timestamp `n`. -/
  | isoStr : Int → PyVal
  /-- The Python `str` produced by `str(uuid)` for the UUID with identifier `u`. -/
  | uuidStr : Nat → PyVal
  /-- A Python `int`. -/
  | vint : Int → PyVal
  /-- A Python `uuid.UUID` object. -/
  | uuid : Nat → PyVal
  /-- A Python `datetime` object, abstracted by its timestamp. -/
  | datetime : Int → PyVal
  deriving DecidableEq, Repr

/-- A top-level value in a serialized state dictionary: either a flat value or
a nested dictionary (used for `engine_states`). -/
inductive PyTop where
  | val : PyVal → PyTop
  | dict : List (String × PyVal) → PyTop
  deriving DecidableEq, Repr

/-- Engine-name-indexed opaque engine payloads (`WorldState.engine_states`). -/
abbrev EngineStates := List (String × PyVal)

/-- A serialized state dictionary (the argument/result of `to_dict`,
`from_dict`, `migrate_state`, `create_diff`, `apply_diff`). -/
abbrev StateDict := List (String × PyTop)

/-- Python dict lookup `d.get(k)` on an association list (first match). -/
def dGet? {α : Type} : List (String × α) → String → Option α
  | [], _ => none
  | (k', v) :: rest, k => if k' = k then some v else dGet? rest k

/-- Python `k in d`. -/
def dMember {α : Type} (d : List (String × α)) (k : String) : Bool :=
  (dGet? d k).isSome

/-- Python dict assignment `d[k] = v`: updates the existing entry in place
(keeping its position) or appends a new entry, like an insertion-ordered dict. -/
def dInsert {α : Type} : List (String × α) → String → α → List (String × α)
  | [], k, v => [(k, v)]
  | (k', v') :: rest, k, v =>
      if k' = k then (k', v) :: rest else (k', v') :: dInsert rest k v

/-- All keys of the association list are pairwise distinct (always true of a
real Python dict). -/
def keysNodup {α : Type} : List (String × α) → Bool
  | [] => true
  | (k, _) :: rest => !(dMember rest k) && keysNodup rest

/-- Python `str(v)` as applied to the values handled by the core.  On strings
it is the identity; `str` of a UUID is its string rendering; `str` of a
datetime is its (ISO-like) rendering, which `fromisoformat` re-parses. -/
def pyStr : PyVal → PyVal
  | .vstr s => .vstr s
  | .isoStr n => .isoStr n
  | .uuidStr u => .uuidStr u
  | .vint i => .vstr (toString i)
  | .uuid u => .uuidStr u
  | .datetime n => .isoStr n

/-- `datetime.fromisoformat(v)`: succeeds exactly on ISO timestamp strings
(`vstr` models strings that are not ISO timestamps); any other argument
raises, modelled by `none`. -/
def fromIso : PyVal → Option Int
  | .isoStr n => some n
  | _ => none

/-- True of the constructors that model a Python `str`. -/
def PyVal.isPyStr : PyVal → Bool
  | .vstr _ => true
  | .isoStr _ => true
  | .uuidStr _ => true
  | _ => false

/-- True exactly of datetime objects. -/
def PyVal.isDatetime : PyVal → Bool
  | .datetime _ => true
  | _ => false

/-- True exactly of `uuid.UUID` objects. -/
def PyVal.isUuidObj : PyVal → Bool
  | .uuid _ => true
  | _ => false

/-- `WORLD_STATE_VERSION` from `backend/simulation_engine/state.py`. -/
def WORLD_STATE_VERSION : Int := 1

/-- The `WorldState` dataclass of `backend/simulation_engine/state.py`.
Fields that the dataclass annotates with `datetime` (`created_at`,
`updated_at`) are modelled by their timestamps; the loosely-checked fields
(`current_time`, `scenario_id`, `timeline_id`, `era`, `current_location`)
are kept as `PyVal` so that the `isinstance` branches of the source and the
UUID-versus-string distinction are representable.  The lazy-loading fields
(`_lazy_loaders`, `_loaded_partitions`) play no role in the claims below and
are omitted. -/
structure WorldState where
  state_version : Int
  current_time : PyVal
  scenario_id : PyVal
  timeline_id : PyVal
  era : PyVal
  current_location : PyVal
  engine_states : EngineStates
  tick_count : Int
  seed : Int
  created_at : Int
  updated_at : Int
  deriving DecidableEq, Repr

namespace WorldState

/-- `current_time.isoformat() if isinstance(current_time, datetime) else
str(current_time)` — the serialization expression used by `to_dict` and
`create_diff`. -/
def serTime (v : PyVal) : PyVal :=
  match v with
  | .datetime n => .isoStr n
  | v => pyStr v

/-- `WorldState.to_dict` (state.py lines 101–119). -/
def to_dict (s : WorldState) : StateDict :=
  [("state_version", .val (.vint s.state_version)),
   ("current_time", .val (serTime s.current_time)),
   ("scenario_id", .val (pyStr s.scenario_id)),
   ("timeline_id", .val (pyStr s.timeline_id)),
   ("era", .val (pyStr s.era)),
   ("current_location", .val (pyStr s.current_location)),
   ("engine_states", .dict s.engine_states),
   ("tick_count", .val (.vint s.tick_count)),
   ("seed", .val (.vint s.seed)),
   ("created_at", .val (.isoStr s.created_at)),
   ("updated_at", .val (.isoStr s.updated_at))]

/-- The dictionary update of one iteration of the `while current < to_version`
loop of `WorldState.migrate_state` (state.py lines 170–191); every branch of
the loop body then continues with `current = next_version = current + 1`. -/
def migrate_step (data : StateDict) (current : Int) : StateDict :=
  let next_version := current + 1
  if current = 0 ∧ next_version = 1 then
    -- Version 0 -> 1: add state_version field if missing
    if dMember data "state_version" then data
    else dInsert data "state_version" (.val (.vint 1))
  else
    -- no migration defined: just update version
    dInsert data "state_version" (.val (.vint next_version))

/-- Fuelled unfolding of the migration `while` loop; since each iteration
increments `current` by one, `(to_version - from_version).toNat` iterations
are exactly the iterations the Python loop performs. -/
def migrate_loop : Nat → StateDict → Int → Int → StateDict
  | 0, data, _, _ => data
  | fuel + 1, data, current, to_version =>
      if current < to_version then
        migrate_loop fuel (migrate_step data current) (current + 1) to_version
      else data

/-- `WorldState.migrate_state` (state.py lines 152–192). -/
def migrate_state (data : StateDict) (from_version to_version : Int) : StateDict :=
  migrate_loop (to_version - from_version).toNat data from_version to_version

/-- `data.get(k, dflt)` expecting a Python `int` (with `dflt = none` it is
`data[k]`, whose absence raises); a non-`int` value is outside the model's
domain. -/
def getIntField (data : StateDict) (k : String) (dflt : Option Int) : Option Int :=
  match dGet? data k with
  | some (.val (.vint n)) => some n
  | none => dflt
  | _ => none

/-- `data[k]` for the fields stored without conversion (`NewType`
constructors are the identity at runtime); absence raises `KeyError`. -/
def getValField (data : StateDict) (k : String) : Option PyVal :=
  match dGet? data k with
  | some (.val v) => some v
  | _ => none

/-- `datetime.fromisoformat(data.get(k, dflt-isoformat))`, yielding the
parsed timestamp; parsing a non-timestamp raises. -/
def getTimeField (data : StateDict) (k : String) (dflt : Option Int) : Option Int :=
  match dGet? data k with
  | some (.val v) => fromIso v
  | none => dflt
  | _ => none

/-- `data.get("engine_states", {})`; a non-dict stored there is outside the
model's domain. -/
def getDictField (data : StateDict) : Option EngineStates :=
  match dGet? data "engine_states" with
  | some (.dict d) => some d
  | none => some []
  | _ => none

/-- `WorldState.from_dict` (state.py lines 121–150).  `now` is the value of
`datetime.now()` used for the `created_at`/`updated_at` defaults.  `none`
models a raised exception (missing required key, unparseable timestamp) or a
payload outside the model's domain. -/
def from_dict (data : StateDict) (now : Int) : Option WorldState := do
  let stored_version ← getIntField data "state_version" (some 0)
  let data :=
    if stored_version < WORLD_STATE_VERSION then
      migrate_state data stored_version WORLD_STATE_VERSION
    else data
  -- ensure state_version is set after migration
  let data :=
    if dMember data "state_version" then data
    else dInsert data "state_version" (.val (.vint WORLD_STATE_VERSION))
  let sv ← getIntField data "state_version" none
  let ct ← (getTimeField data "current_time" none).map PyVal.datetime
  let scid ← getValField data "scenario_id"
  let tlid ← getValField data "timeline_id"
  let era ← getValField data "era"
  let loc ← getValField data "current_location"
  let es ← getDictField data
  let tc ← getIntField data "tick_count" (some 0)
  let sd ← getIntField data "seed" (some 42)
  let ca ← getTimeField data "created_at" (some now)
  let ua ← getTimeField data "updated_at" (some now)
  pure ⟨sv, ct, scid, tlid, era, loc, es, tc, sd, ca, ua⟩

/-- The `engine_diffs` loop of `create_diff` (state.py lines 219–226): the
entries of `s.engine_states` whose payload differs (`!=`, with an absent
previous entry compared as `None`) from the previous state's entry. -/
def engineDiffs (s previous_state : WorldState) : EngineStates :=
  s.engine_states.filter
    (fun p => dGet? previous_state.engine_states p.1 ≠ some p.2)

/-- `WorldState.create_diff` (state.py lines 194–231); `s` plays `self`,
`previous_state` the previous state. -/
def create_diff (s previous_state : WorldState) : StateDict :=
  let diff : StateDict := []
  let diff :=
    if s.current_time ≠ previous_state.current_time then
      dInsert diff "current_time" (.val (serTime s.current_time))
    else diff
  let diff :=
    if s.current_location ≠ previous_state.current_location then
      dInsert diff "current_location" (.val (pyStr s.current_location))
    else diff
  let diff :=
    if s.tick_count ≠ previous_state.tick_count then
      dInsert diff "tick_count" (.val (.vint s.tick_count))
    else diff
  let engine_diffs := engineDiffs s previous_state
  let diff :=
    if engine_diffs ≠ [] then dInsert diff "engine_states" (.dict engine_diffs)
    else diff
  diff

/-- The `if "current_time" in diff:` step of `apply_diff`:
`target.current_time = Time(datetime.fromisoformat(diff["current_time"]))`. -/
def applyTimeStep (diff : StateDict) (target : WorldState) : Option WorldState :=
  match dGet? diff "current_time" with
  | none => some target
  | some (.val v) => (fromIso v).map (fun t => { target with current_time := .datetime t })
  | some (.dict _) => none

/-- The `if "current_location" in diff:` step of `apply_diff`:
`target.current_location = Location(diff["current_location"])`. -/
def applyLocStep (diff : StateDict) (target : WorldState) : Option WorldState :=
  match dGet? diff "current_location" with
  | none => some target
  | some (.val v) => some { target with current_location := v }
  | some (.dict _) => none

/-- The `if "tick_count" in diff:` step of `apply_diff`. -/
def applyTickStep (diff : StateDict) (target : WorldState) : Option WorldState :=
  match dGet? diff "tick_count" with
  | none => some target
  | some (.val (.vint n)) => some { target with tick_count := n }
  | some _ => none

/-- The `if "engine_states" in diff:` step of `apply_diff`: assign every
diffed engine entry into the target's `engine_states`. -/
def applyEngineStep (diff : StateDict) (target : WorldState) : Option WorldState :=
  match dGet? diff "engine_states" with
  | none => some target
  | some (.dict d) =>
      some { target with
              engine_states :=
                d.foldl (fun es p => dInsert es p.1 p.2) target.engine_states }
  | some (.val _) => none

/-- `WorldState.apply_diff` (state.py lines 233–255) applied to an explicit
target state (the source's `base_state if base_state else self`); `now` is
`datetime.now()` for the final `updated_at` assignment.  `none` models a
raised exception (an unparseable `current_time`, or a diff value outside the
model's domain). -/
def apply_diff (diff : StateDict) (target : WorldState) (now : Int) :
    Option WorldState := do
  let target ← applyTimeStep diff target
  let target ← applyLocStep diff target
  let target ← applyTickStep diff target
  let target ← applyEngineStep diff target
  pure { target with updated_at := now }

/-- A `WorldState` that is well-typed per the dataclass annotations of
`state.py` and `shared/types.py`: `current_time : Time` is a datetime,
`scenario_id`/`era`/`current_location` are strings, `timeline_id : TimelineID`
is a UUID (or the string a previous `from_dict` produced), the schema version
is current, and `engine_states` is a genuine dict (distinct keys). -/
def validB (s : WorldState) : Bool :=
  s.current_time.isDatetime &&
  s.scenario_id.isPyStr &&
  (s.timeline_id.isUuidObj || s.timeline_id.isPyStr) &&
  s.era.isPyStr &&
  s.current_location.isPyStr &&
  (s.state_version == WORLD_STATE_VERSION) &&
  keysNodup s.engine_states

end WorldState

/-! ## SimulationOrchestrator (backend/simulation_engine/orchestrator.py)

Engines are external to the core; for the initialization-ordering and
registration claims an engine is its registration record: a distinct object
identity (Python's default `__eq__`), a `name`, declared `dependencies` and a
`priority`.  `engine.initialize(state)` is modelled as always succeeding — an
initialization failure aborts the whole pass and is outside the ordering
claims. -/

/-- An engine object as the orchestrator sees it.  `oid` models Python object
identity; two registered engine objects are distinct values even when their
names coincide. -/
structure PEngine where
  oid : Nat
  name : String
  dependencies : List String
  priority : Int
  deriving DecidableEq, Repr

/-- `SimulationOrchestrator.register_engine` (orchestrator.py lines 125–136):
`if engine in self.engines: return` (Python `in`, i.e. object equality), else
append. -/
def register_engine (engines : List PEngine) (engine : PEngine) : List PEngine :=
  if engine ∈ engines then engines else engines ++ [engine]

/-- One pass of the initialization loop of `SimulationOrchestrator.initialize`
(orchestrator.py lines 87–103): iterate over a snapshot of `remaining`; an
engine whose dependencies are all names of already-initialized engines is
initialized (appended to the trace) and removed from `remaining`; `progress`
records whether any engine was initialized during the pass.  Returns
`(remaining, trace, progress)`. -/
def initPass : List PEngine → List PEngine → List PEngine × List PEngine × Bool
  | [], trace => ([], trace, false)
  | e :: rest, trace =>
      if e.dependencies.all (fun d => (trace.map PEngine.name).contains d) then
        let r := initPass rest (trace ++ [e])
        (r.1, r.2.1, true)
      else
        let r := initPass rest trace
        (e :: r.1, r.2.1, r.2.2)

/-- The `while remaining:` loop of `SimulationOrchestrator.initialize`
(orchestrator.py lines 87–110), fuelled by the number of engines (every
progressing pass removes at least one engine, so `engines.length` passes
suffice).  `.error names` models the fatal `RuntimeError` naming the stuck
engines; `.ok trace` returns the engines in initialization order. -/
def initLoop : Nat → List PEngine → List PEngine → Except (List String) (List PEngine)
  | _, [], trace => .ok trace
  | 0, remaining, _ => .error (remaining.map PEngine.name)
  | fuel + 1, remaining, trace =>
      let r := initPass remaining trace
      if r.2.2 then initLoop fuel r.1 r.2.1
      else .error (r.1.map PEngine.name)

/-- Dependency-ordered engine initialization as performed by
`SimulationOrchestrator.initialize` on a registry `engines`. -/
def initializeEngines (engines : List PEngine) : Except (List String) (List PEngine) :=
  initLoop engines.length engines []

/-- A trace is dependency-ordered: every engine in it was initialized only
once every name in its dependency list had already been initialized (`acc`
holds the names initialized before the trace). -/
def goodTraceB : List PEngine → List String → Bool
  | [], _ => true
  | e :: rest, acc =>
      e.dependencies.all (fun d => acc.contains d) && goodTraceB rest (acc ++ [e.name])

/-- Index of the first occurrence of a name (length if absent). -/
def idxOfName : List String → String → Nat
  | [], _ => 0
  | x :: rest, n => if x = n then 0 else idxOfName rest n + 1

/-- `x` occurs strictly before `y` in `l` (both present). -/
def nameBefore (l : List String) (x y : String) : Bool :=
  l.contains x && l.contains y && decide (idxOfName l x < idxOfName l y)

/-! ## EventBus (backend/simulation-engine/event_bus.py)

Handlers are opaque identifiers (their effects are external); a *delivery* is
the invocation of one handler with an event's type and payload, and payloads
are opaque identifiers.  With exactly one worker the bus is sequential: the
worker repeatedly dequeues the FIFO head and dispatches it, which `drain`
models directly. -/

/-- The `backpressure_strategy` constructor argument. -/
inductive Strategy where
  | drop
  | block
  | log
  deriving DecidableEq, Repr

/-- Event payloads, abstracted. -/
abbrev Payload := Nat

/-- A delivery: handler id, event type, payload. -/
abbrev Delivery := Nat × String × Payload

/-- The `EventBus` object state (event_bus.py lines 14–43). -/
structure EventBus where
  subscribers : List (String × List Nat)
  event_history : List (String × Payload)
  max_history : Nat
  max_queue_size : Nat
  queue : List (String × Payload)
  strategy : Strategy
  published : Nat
  processed : Nat
  dropped : Nat
  errors : Nat
  deriving DecidableEq, Repr

namespace EventBus

/-- A fresh bus with the given subscriptions and configuration
(`EventBus.__init__` plus the `subscribe` calls). -/
def init (subs : List (String × List Nat)) (maxq maxh : Nat) (strat : Strategy) :
    EventBus :=
  ⟨subs, [], maxh, maxq, [], strat, 0, 0, 0, 0⟩

/-- The handlers `_process_event` invokes for an event of type `t`: the
literal-type subscribers followed by the wildcard subscribers
(event_bus.py lines 112–117). -/
def handlersFor (subs : List (String × List Nat)) (t : String) : List Nat :=
  (dGet? subs t).getD [] ++ (dGet? subs "*").getD []

/-- The deliveries `_process_event` performs for one event. -/
def deliveriesFor (subs : List (String × List Nat)) (t : String) (d : Payload) :
    List Delivery :=
  (handlersFor subs t).map (fun h => (h, t, d))

/-- `EventBus._process_event` (event_bus.py lines 99–124): append the event to
the bounded history ring (oldest dropped first), then invoke the literal-type
handlers followed by the wildcard handlers.  Handler exceptions are caught
per handler and do not affect the bus, so the bus-state change is the history
update; the returned list records the handler invocations. -/
def process_event (bus : EventBus) (t : String) (d : Payload) :
    EventBus × List Delivery :=
  let hist := bus.event_history ++ [(t, d)]
  let hist := if bus.max_history < hist.length then hist.tail else hist
  ({ bus with event_history := hist }, deliveriesFor bus.subscribers t d)

/-- `EventBus.publish` (event_bus.py lines 126–167).  `space_freed` models,
for the `block` strategy only, whether a worker frees a queue slot within the
5-second `wait_for` timeout (in which case the freed slot is the dequeued
head and the published event is appended). -/
def publish (bus : EventBus) (t : String) (d : Payload) (space_freed : Bool) :
    EventBus × Bool :=
  let bus := { bus with published := bus.published + 1 }
  if bus.queue.length < bus.max_queue_size then
    ({ bus with queue := bus.queue ++ [(t, d)] }, true)
  else
    let bus := { bus with dropped := bus.dropped + 1 }
    match bus.strategy with
    | .drop => (bus, false)
    | .block =>
        if space_freed then
          ({ bus with queue := bus.queue.tail ++ [(t, d)] }, true)
        else (bus, false)
    | .log => (bus, false)

/-- Publish a sequence of events (no worker running concurrently, so no slot
is freed mid-sequence); returns the final bus and the acceptance results in
order. -/
def publishAll : EventBus → List (String × Payload) → EventBus × List Bool
  | bus, [] => (bus, [])
  | bus, e :: rest =>
      let r := publish bus e.1 e.2 false
      let r2 := publishAll r.1 rest
      (r2.1, r.2 :: r2.2)

/-- The single worker's drain loop (`EventBus._worker`, event_bus.py lines
71–97, with `worker_count = 1`): dequeue the FIFO head, process it, count it
processed, until the queue is empty; returns the final bus and the delivery
log in dispatch order. -/
def drainGo : Nat → EventBus → List Delivery → EventBus × List Delivery
  | 0, bus, acc => (bus, acc)
  | fuel + 1, bus, acc =>
      match bus.queue with
      | [] => (bus, acc)
      | (t, d) :: rest =>
          let r := process_event { bus with queue := rest } t d
          drainGo fuel { r.1 with processed := r.1.processed + 1 } (acc ++ r.2)

/-- Drain the whole queue with a single worker. -/
def drain (bus : EventBus) : EventBus × List Delivery :=
  drainGo bus.queue.length bus []

end EventBus

/-! ## TickScheduler (backend/simulation-engine/tick.py)

Engine `tick` calls are external; the model records each invocation (by
engine name) in a log — a per-engine exception is caught and logged and the
remaining engines still run, so an invocation happens for each engine of the
list on every completed tick.  `tick_rate` (a float that is only stored,
zeroed and restored, never used arithmetically) is modelled as a rational. -/

/-- An engine as the scheduler sees it. -/
structure TEngine where
  name : String
  deriving DecidableEq, Repr

/-- The `TickScheduler` object state (tick.py lines 18–38). -/
structure TickSched where
  engines : List TEngine
  state : WorldState
  tick_rate : ℚ
  time_per_tick : Int
  running : Bool
  paused : Bool
  deriving DecidableEq, Repr

namespace TickSched

/-- `current_time` values `_tick` can advance: a datetime, or a string that
`datetime.fromisoformat` parses. -/
def tickableTime (v : PyVal) : Bool :=
  match v with
  | .datetime _ => true
  | .isoStr _ => true
  | _ => false

/-- `TickScheduler._tick` (tick.py lines 65–89): advance `current_time` by
`time_per_tick` (parsing it first when it is a string), increment
`tick_count`, then invoke every engine in order (per-engine exceptions are
caught, so each engine is invoked).  The whole body is wrapped in
`try/except`, so an unparseable `current_time` leaves the state unchanged and
invokes no engine.  Returns the scheduler and the engine-invocation log. -/
def tickOnce (s : TickSched) : TickSched × List String :=
  match s.state.current_time with
  | .datetime t =>
      let st := { s.state with
                    current_time := .datetime (t + s.time_per_tick),
                    tick_count := s.state.tick_count + 1 }
      ({ s with state := st }, s.engines.map TEngine.name)
  | .isoStr t =>
      let st := { s.state with
                    current_time := .datetime (t + s.time_per_tick),
                    tick_count := s.state.tick_count + 1 }
      ({ s with state := st }, s.engines.map TEngine.name)
  | _ => (s, [])

/-- `n` consecutive `_tick` calls (the body of `fast_forward`'s
`for _ in range(ticks)` loop), with the concatenated invocation log. -/
def tickN : TickSched → Nat → TickSched × List String
  | s, 0 => (s, [])
  | s, n + 1 =>
      let r := s.tickOnce
      let r2 := tickN r.1 n
      (r2.1, r.2 ++ r2.2)

/-- `TickScheduler.fast_forward` (tick.py lines 91–105): save `tick_rate`,
set it to zero, run `ticks` back-to-back `_tick`s, restore the saved rate. -/
def fast_forward (s : TickSched) (ticks : Nat) : TickSched × List String :=
  let original_rate := s.tick_rate
  let s := { s with tick_rate := 0 }
  let r := tickN s ticks
  ({ r.1 with tick_rate := original_rate }, r.2)

/-- `TickScheduler.pause` (tick.py lines 55–58). -/
def pause (s : TickSched) : TickSched :=
  { s with paused := true }

/-- One iteration of the `start()` loop (tick.py lines 45–48) with the
inter-tick sleep abstracted away: the only place the `paused` flag is
consulted — a paused scheduler performs no tick. -/
def startIteration (s : TickSched) : TickSched × List String :=
  if s.paused then (s, []) else s.tickOnce

end TickSched

/-! ## Concrete instances used by the counterexamples and witnesses -/

/-- An engine object named "A". -/
def engA1 : PEngine := ⟨1, "A", [], 0⟩

/-- A second, distinct engine object also named "A". -/
def engA2 : PEngine := ⟨2, "A", [], 0⟩

/-- Engine A of the dependency scenario: no dependencies. -/
def depA : PEngine := ⟨10, "A", [], 0⟩

/-- Engine B of the dependency scenario: depends on A. -/
def depB : PEngine := ⟨11, "B", ["A"], 1⟩

/-- Engine C of the dependency scenario: depends on A and B. -/
def depC : PEngine := ⟨12, "C", ["A", "B"], 2⟩

/-- Does the result of `initializeEngines` initialize A strictly before B and
both strictly before C? -/
def checkABC (r : Except (List String) (List PEngine)) : Bool :=
  match r with
  | .ok trace =>
      let names := trace.map PEngine.name
      nameBefore names "A" "B" && nameBefore names "A" "C" && nameBefore names "B" "C"
  | .error _ => false

/-- A well-typed world state whose `timeline_id` is a UUID object (as
`SimulationOrchestrator.initialize` constructs it: `TimelineID(uuid4())`). -/
def sC3 : WorldState :=
  ⟨1, .datetime 0, .vstr "scenario", .uuid 7, .vstr "1900", .vstr "Paris",
   [("history", .vint 3)], 0, 42, 5, 6⟩

/-- A serialized payload carrying an explicit `state_version` of `0`. -/
def dC4 : StateDict :=
  [("state_version", .val (.vint 0)),
   ("current_time", .val (.isoStr 3)),
   ("scenario_id", .val (.vstr "s")),
   ("timeline_id", .val (.uuidStr 9)),
   ("era", .val (.vstr "1900")),
   ("current_location", .val (.vstr "Paris"))]

/-- The same payload without any `state_version` key (a version-0 payload by
`data.get("state_version", 0)`). -/
def dC4b : StateDict :=
  [("current_time", .val (.isoStr 3)),
   ("scenario_id", .val (.vstr "s")),
   ("timeline_id", .val (.uuidStr 9)),
   ("era", .val (.vstr "1900")),
   ("current_location", .val (.vstr "Paris"))]

/-- A valid world state for the diff counterexample. -/
def aC5 : WorldState :=
  ⟨1, .datetime 0, .vstr "s", .uuid 1, .vstr "1900", .vstr "P",
   [("eco", .vint 1)], 0, 42, 0, 0⟩

/-- Identical to `aC5` except for the `era` field. -/
def bC5 : WorldState := { aC5 with era := .vstr "2000" }

/-- A concrete scheduler over one engine, positioned at a datetime. -/
def schedW : TickSched :=
  ⟨[⟨"history"⟩, ⟨"economy"⟩],
   ⟨1, .datetime 0, .vstr "s", .uuid 1, .vstr "1900", .vstr "P", [], 0, 42, 0, 0⟩,
   1, 86400, true, false⟩

/-! ## C8 — engine registration -/

/-- C8 counterexample: the membership test of `register_engine` is Python
object equality, not a name lookup.  Registering `engA2`, a distinct engine
object whose name "A" is already present in the registry `[engA1]`, is *not*
a no-op: the registry changes (the claim "registering an engine whose name is
already present is a no-op" is false at this input). -/
theorem register_engine_same_name_appends :
    ("A" ∈ List.map PEngine.name [engA1]) ∧ engA2.name = "A" ∧
    register_engine [engA1] engA2 ≠ [engA1] := by decide

/-- C8 (amended): `register_engine` appends the engine to the registry, and
re-registering the *same engine object* is a no-op; a distinct object whose
name is already present is appended nonetheless. -/
theorem register_engine_spec :
    (∀ (engines : List PEngine) (e : PEngine), e ∈ engines →
        register_engine engines e = engines) ∧
    (∀ (engines : List PEngine) (e : PEngine), e ∉ engines →
        register_engine engines e = engines ++ [e]) := by
  constructor <;> intro engines e h <;> simp [register_engine, h]

/-- C8 witness: the amended behaviour at a concrete registry. -/
theorem register_engine_spec_witness :
    register_engine [engA1] engA1 = [engA1] ∧
    register_engine [engA1] engA2 = [engA1] ++ [engA2] :=
  ⟨register_engine_spec.1 [engA1] engA1 (by decide),
   register_engine_spec.2 [engA1] engA2 (by decide)⟩

/-! ## C6 and C9 — backpressure -/

/-- C6: with the "drop" strategy and a full queue, `publish` returns `False`
(no error raised, no waiting — the returned bus shows no other change than
the `published` and `dropped` counters, each incremented by exactly one, and
the queue is left untouched). -/
theorem publish_drop_full (bus : EventBus) (t : String) (d : Payload) (sf : Bool)
    (hstrat : bus.strategy = .drop)
    (hfull : bus.max_queue_size ≤ bus.queue.length) :
    EventBus.publish bus t d sf =
      ({ bus with published := bus.published + 1, dropped := bus.dropped + 1 }, false) := by
  simp [EventBus.publish, Nat.not_lt.mpr hfull, hstrat]

/-- C6 witness: a concrete full bus under the "drop" strategy. -/
theorem publish_drop_full_witness :
    EventBus.publish { EventBus.init [] 1 5 .drop with queue := [("a", 0)] } "e" 1 false =
      ({ { EventBus.init [] 1 5 .drop with queue := [("a", 0)] } with
           published := 1, dropped := 1 }, false) :=
  publish_drop_full _ "e" 1 false rfl (by decide)

/-- C9: whenever the queue is full at publish time the `dropped` counter is
incremented — before the strategy branch — so it counts queue-full
encounters, not only discarded events; in particular, under the "block"
strategy `publish` can return `True` (slot freed within the timeout, event
enqueued) while `dropped` still increased by one. -/
theorem publish_dropped_counts_encounters :
    (∀ (bus : EventBus) (t : String) (d : Payload) (sf : Bool),
        bus.max_queue_size ≤ bus.queue.length →
        (EventBus.publish bus t d sf).1.dropped = bus.dropped + 1) ∧
    ((EventBus.publish { EventBus.init [] 1 5 .block with queue := [("a", 0)] }
        "e" 1 true).2 = true ∧
     (EventBus.publish { EventBus.init [] 1 5 .block with queue := [("a", 0)] }
        "e" 1 true).1.dropped =
       ({ EventBus.init [] 1 5 .block with queue := [("a", 0)] } : EventBus).dropped + 1) := by
  refine ⟨?_, by decide, by decide⟩
  intro bus t d sf h
  simp only [EventBus.publish, Nat.not_lt.mpr h, if_false]
  cases hs : bus.strategy <;> cases sf <;> simp [hs]

/-- C9 witness: the universally quantified conjunct at a concrete full bus. -/
theorem publish_dropped_counts_encounters_witness :
    (EventBus.publish { EventBus.init [] 1 5 .log with queue := [("a", 0)] }
        "e" 1 false).1.dropped =
      ({ EventBus.init [] 1 5 .log with queue := [("a", 0)] } : EventBus).dropped + 1 :=
  publish_dropped_counts_encounters.1 _ "e" 1 false (by decide)

/-! ## C7 and C10 — fast-forward -/

/-- On a tickable `current_time`, `_tick` increments the tick counter,
leaves the time tickable, invokes every engine once and touches neither the
engine list, the rate, nor the pause flag. -/
theorem tickOnce_props (s : TickSched)
    (h : TickSched.tickableTime s.state.current_time = true) :
    s.tickOnce.1.state.tick_count = s.state.tick_count + 1 ∧
    TickSched.tickableTime s.tickOnce.1.state.current_time = true ∧
    s.tickOnce.2 = s.engines.map TEngine.name ∧
    s.tickOnce.1.engines = s.engines ∧
    s.tickOnce.1.tick_rate = s.tick_rate ∧
    s.tickOnce.1.paused = s.paused := by
  cases hc : s.state.current_time <;>
    simp [TickSched.tickableTime, hc] at h ⊢ <;>
    simp [TickSched.tickOnce, hc, TickSched.tickableTime]

/-- `_tick` does not read the wall-clock rate or the pause flag: changing
them commutes with a tick. -/
theorem tickOnce_rate_pause (s : TickSched) (r : ℚ) (p : Bool) :
    TickSched.tickOnce { s with tick_rate := r, paused := p } =
      ({ s.tickOnce.1 with tick_rate := r, paused := p }, s.tickOnce.2) := by
  cases hc : s.state.current_time <;> simp [TickSched.tickOnce, hc]

/-- Iterating `_tick` `n` times from a tickable time advances the counter by
exactly `n` and invokes every engine `n` times, engine-list order per tick. -/
theorem tickN_props (n : Nat) (s : TickSched)
    (h : TickSched.tickableTime s.state.current_time = true) :
    (TickSched.tickN s n).1.state.tick_count = s.state.tick_count + (n : Int) ∧
    (TickSched.tickN s n).2 =
      (List.replicate n (s.engines.map TEngine.name)).flatten ∧
    (TickSched.tickN s n).1.tick_rate = s.tick_rate ∧
    (TickSched.tickN s n).1.paused = s.paused := by
  induction n generalizing s with
  | zero => simp [TickSched.tickN]
  | succ m ih =>
      obtain ⟨h1, h2, h3, h4, h5, h6⟩ := tickOnce_props s h
      obtain ⟨ih1, ih2, ih3, ih4⟩ := ih s.tickOnce.1 h2
      refine ⟨?_, ?_, ?_, ?_⟩
      · simp [TickSched.tickN, ih1, h1]; ring
      · simp [TickSched.tickN, ih2, h2, h3, h4, List.replicate_succ]
      · simp [TickSched.tickN, ih3, h5]
      · simp [TickSched.tickN, ih4, h6]

/-- Zeroing the rate commutes with `n` ticks. -/
theorem tickN_rate_pause (n : Nat) (s : TickSched) (r : ℚ) (p : Bool) :
    TickSched.tickN { s with tick_rate := r, paused := p } n =
      ({ (TickSched.tickN s n).1 with tick_rate := r, paused := p },
       (TickSched.tickN s n).2) := by
  induction n generalizing s with
  | zero => simp [TickSched.tickN]
  | succ m ih =>
      simp only [TickSched.tickN, tickOnce_rate_pause]
      rw [ih s.tickOnce.1]

/-- Shared characterization of `fast_forward`: it performs exactly the same
`n` per-tick state transitions and engine invocations as `n` normal `_tick`
calls, restores the saved wall-clock rate, and never consults the pause
flag. -/
theorem fast_forward_props (s : TickSched) (n : Nat)
    (h : TickSched.tickableTime s.state.current_time = true) :
    (s.fast_forward n).1.state.tick_count = s.state.tick_count + (n : Int) ∧
    (s.fast_forward n).1.tick_rate = s.tick_rate ∧
    (s.fast_forward n).1.state = (TickSched.tickN s n).1.state ∧
    (s.fast_forward n).2 = (TickSched.tickN s n).2 ∧
    (s.fast_forward n).2 =
      (List.replicate n (s.engines.map TEngine.name)).flatten ∧
    (s.fast_forward n).1.paused = s.paused := by
  have hz := tickN_rate_pause n s 0 s.paused
  have hffst : { s with tick_rate := 0 } = { s with tick_rate := 0, paused := s.paused } := rfl
  obtain ⟨p1, p2, _, p4⟩ := tickN_props n s h
  constructor
  · simp [TickSched.fast_forward, hffst, hz, p1]
  refine ⟨rfl, ?_, ?_, ?_, ?_⟩
  · simp [TickSched.fast_forward, hffst, hz]
  · simp [TickSched.fast_forward, hffst, hz]
  · simp [TickSched.fast_forward, hffst, hz, p2]
  · simp [TickSched.fast_forward, hffst, hz, p4]

/-- C7: `fast_forward(n)` advances the tick counter by exactly `n`, leaves
`tick_rate` equal to its value from before the call, and changes nothing
else about per-tick semantics — the resulting state and the engine
invocations are exactly those of `n` normal `_tick` calls. -/
theorem fast_forward_spec (s : TickSched) (n : Nat)
    (h : TickSched.tickableTime s.state.current_time = true) :
    (s.fast_forward n).1.state.tick_count = s.state.tick_count + (n : Int) ∧
    (s.fast_forward n).1.tick_rate = s.tick_rate ∧
    (s.fast_forward n).1.state = (TickSched.tickN s n).1.state ∧
    (s.fast_forward n).2 = (TickSched.tickN s n).2 := by
  obtain ⟨p1, p2, p3, p4, _, _⟩ := fast_forward_props s n h
  exact ⟨p1, p2, p3, p4⟩

/-- C7 witness: fast-forwarding the concrete scheduler by 3 ticks. -/
theorem fast_forward_spec_witness :
    (schedW.fast_forward 3).1.state.tick_count = schedW.state.tick_count + (3 : Int) ∧
    (schedW.fast_forward 3).1.tick_rate = schedW.tick_rate ∧
    (schedW.fast_forward 3).1.state = (TickSched.tickN schedW 3).1.state ∧
    (schedW.fast_forward 3).2 = (TickSched.tickN schedW 3).2 :=
  fast_forward_spec schedW 3 (by decide)

/-- C10: `pause()` does not prevent `fast_forward` from ticking — the paused
flag is consulted only by the `start()` loop.  A paused scheduler's
`fast_forward(n)` still advances the counter by `n` and invokes every engine
`n` times, while one `start()`-loop iteration of the same paused scheduler
performs no tick at all. -/
theorem fast_forward_ignores_pause (s : TickSched) (n : Nat)
    (h : TickSched.tickableTime s.state.current_time = true) :
    (s.pause.fast_forward n).1.state.tick_count = s.state.tick_count + (n : Int) ∧
    (s.pause.fast_forward n).2 =
      (List.replicate n (s.engines.map TEngine.name)).flatten ∧
    (s.pause.fast_forward n).1.paused = true ∧
    s.pause.startIteration = (s.pause, []) := by
  obtain ⟨p1, _, _, _, p5, p6⟩ := fast_forward_props s.pause n h
  exact ⟨p1, p5, p6, by simp [TickSched.startIteration, TickSched.pause]⟩

/-- C10 witness: the paused concrete scheduler still advances by 4. -/
theorem fast_forward_ignores_pause_witness :
    (schedW.pause.fast_forward 4).1.state.tick_count = schedW.state.tick_count + (4 : Int) ∧
    (schedW.pause.fast_forward 4).2 =
      (List.replicate 4 (schedW.engines.map TEngine.name)).flatten ∧
    (schedW.pause.fast_forward 4).1.paused = true ∧
    schedW.pause.startIteration = (schedW.pause, []) :=
  fast_forward_ignores_pause schedW 4 (by decide)

/-! ## C1 — dependency-ordered initialization -/

/-- Appending an engine to a trace is dependency-ordered iff the trace was
and the engine's dependencies all already occur in it. -/
theorem goodTraceB_append (t : List PEngine) (e : PEngine) (acc : List String) :
    goodTraceB (t ++ [e]) acc =
      (goodTraceB t acc &&
       e.dependencies.all (fun d => (acc ++ t.map PEngine.name).contains d)) := by
  induction t generalizing acc with
  | nil => simp [goodTraceB]
  | cons x rest ih =>
      simp only [List.cons_append, goodTraceB, List.append_eq]
      rw [ih]
      simp [Bool.and_assoc, List.append_assoc]

/-- Each pass of the initialization loop keeps the trace dependency-ordered:
an engine is appended only when all its dependencies are names of engines
already in the trace. -/
theorem initPass_good (snapshot : List PEngine) (trace : List PEngine)
    (h : goodTraceB trace [] = true) :
    goodTraceB (initPass snapshot trace).2.1 [] = true := by
  induction snapshot generalizing trace with
  | nil => simpa [initPass] using h
  | cons e rest ih =>
      by_cases hc :
          e.dependencies.all (fun d => (trace.map PEngine.name).contains d) = true
      · simp only [initPass, hc, if_true]
        apply ih
        rw [goodTraceB_append]
        simpa [h] using hc
      · simp only [initPass, hc, if_false]
        exact ih trace h

/-- The fix-point loop keeps the trace dependency-ordered through every pass. -/
theorem initLoop_good (fuel : Nat) (remaining trace : List PEngine)
    (h : goodTraceB trace [] = true) :
    ∀ out, initLoop fuel remaining trace = .ok out → goodTraceB out [] = true := by
  induction fuel generalizing remaining trace with
  | zero =>
      intro out hout
      cases remaining with
      | nil => simp only [initLoop] at hout; cases hout; exact h
      | cons e rest => simp [initLoop] at hout
  | succ n ih =>
      intro out hout
      cases remaining with
      | nil => simp only [initLoop] at hout; cases hout; exact h
      | cons e rest =>
          simp only [initLoop] at hout
          by_cases hp : (initPass (e :: rest) trace).2.2 = true
          · rw [if_pos hp] at hout
            exact ih _ _ (initPass_good (e :: rest) trace h) out hout
          · rw [if_neg hp] at hout
            cases hout

/-- C1: for engines A, B, C with dependencies C→{A,B}, B→{A}, every
registration order initializes A strictly before B and both strictly before
C; in general, whenever the fix-point pass of `initialize` succeeds, every
engine in the produced initialization order was initialized only after every
name in its dependency list. -/
theorem initialize_dependency_order :
    (∀ l : List PEngine, l.Perm [depA, depB, depC] →
        checkABC (initializeEngines l) = true) ∧
    (∀ engines trace : List PEngine,
        initializeEngines engines = .ok trace → goodTraceB trace [] = true) := by
  constructor
  · intro l hl
    have h3 : l.length = 3 := hl.length_eq
    obtain ⟨x, y, z, rfl⟩ : ∃ x y z, l = [x, y, z] := by
      match l, h3 with
      | [x, y, z], _ => exact ⟨x, y, z, rfl⟩
    have hnd : List.Nodup [x, y, z] := hl.nodup_iff.mpr (by decide)
    have hx : x ∈ [depA, depB, depC] := hl.subset (by simp)
    have hy : y ∈ [depA, depB, depC] := hl.subset (by simp)
    have hz : z ∈ [depA, depB, depC] := hl.subset (by simp)
    simp only [List.mem_cons, List.not_mem_nil, or_false] at hx hy hz
    rcases hx with rfl | rfl | rfl <;> rcases hy with rfl | rfl | rfl <;>
      rcases hz with rfl | rfl | rfl <;>
      first
        | exact absurd hnd (by decide)
        | decide
  · intro engines trace h
    exact initLoop_good engines.length engines [] rfl trace h

/-- C1 witness: a reversed registration order still initializes A, B, C in
dependency order, and the resulting trace is dependency-ordered. -/
theorem initialize_dependency_order_witness :
    checkABC (initializeEngines [depC, depB, depA]) = true ∧
    goodTraceB [depA, depB, depC] [] = true :=
  ⟨initialize_dependency_order.1 [depC, depB, depA] (by decide),
   initialize_dependency_order.2 [depC, depB, depA] [depA, depB, depC] (by rfl)⟩

/-! ## C2 — single-worker delivery -/

/-- Publishing onto a non-full queue only appends the event and counts it. -/
theorem publish_not_full (bus : EventBus) (t : String) (d : Payload) (sf : Bool)
    (h : bus.queue.length < bus.max_queue_size) :
    EventBus.publish bus t d sf =
      ({ bus with published := bus.published + 1, queue := bus.queue ++ [(t, d)] },
       true) := by
  simp [EventBus.publish, h]

/-- A publish sequence that stays within capacity is accepted in full and
enqueues the events in publish order after the existing queue. -/
theorem publishAll_ok (evs : List (String × Payload)) (bus : EventBus)
    (h : bus.queue.length + evs.length ≤ bus.max_queue_size) :
    (EventBus.publishAll bus evs).1 =
      { bus with published := bus.published + evs.length,
                 queue := bus.queue ++ evs } ∧
    (EventBus.publishAll bus evs).2 = List.replicate evs.length true := by
  induction evs generalizing bus with
  | nil => simp [EventBus.publishAll]
  | cons e rest ih =>
      simp only [List.length_cons] at h
      have hlt : bus.queue.length < bus.max_queue_size := by omega
      obtain ⟨ih1, ih2⟩ := ih
        { bus with published := bus.published + 1, queue := bus.queue ++ [e] }
        (by simp; omega)
      constructor
      · simp only [EventBus.publishAll, publish_not_full bus e.1 e.2 false hlt, ih1]
        simp [List.append_assoc]
        omega
      · simp only [EventBus.publishAll, publish_not_full bus e.1 e.2 false hlt, ih2]
        simp [List.replicate_succ]

/-- The single worker dispatches the queued events in FIFO order, each one to
its literal-type handlers followed by the wildcard handlers. -/
theorem drainGo_spec (fuel : Nat) :
    ∀ (bus : EventBus) (acc : List Delivery), bus.queue.length ≤ fuel →
    (EventBus.drainGo fuel bus acc).2 =
      acc ++ bus.queue.flatMap
        (fun e => EventBus.deliveriesFor bus.subscribers e.1 e.2) := by
  induction fuel with
  | zero =>
      intro bus acc h
      have : bus.queue = [] := List.eq_nil_of_length_eq_zero (Nat.le_zero.mp h)
      simp [EventBus.drainGo, this]
  | succ n ih =>
      intro bus acc h
      match hq : bus.queue with
      | [] => simp [EventBus.drainGo, hq]
      | (t, d) :: rest =>
          have hr : rest.length ≤ n := by
            have := h; rw [hq] at this; simpa using this
          simp only [EventBus.drainGo, hq]
          rw [ih _ _ (by simpa [EventBus.process_event] using hr)]
          simp [EventBus.process_event, List.append_assoc]

/-- C2: from a fresh bus with a single worker, any publish sequence within
queue capacity is accepted in full, and draining the queue delivers, in
publish order, each event exactly once to each subscription of its literal
type and each wildcard subscription (the delivery log is exactly the publish
sequence expanded, event by event, into its literal-type handlers followed by
the wildcard handlers). -/
theorem eventbus_single_worker_delivery (subs : List (String × List Nat))
    (maxq maxh : Nat) (strat : Strategy) (evs : List (String × Payload))
    (h : evs.length ≤ maxq) :
    (EventBus.publishAll (EventBus.init subs maxq maxh strat) evs).2 =
      List.replicate evs.length true ∧
    (EventBus.drain (EventBus.publishAll (EventBus.init subs maxq maxh strat) evs).1).2 =
      evs.flatMap (fun e => EventBus.deliveriesFor subs e.1 e.2) := by
  obtain ⟨h1, h2⟩ :=
    publishAll_ok evs (EventBus.init subs maxq maxh strat) (by simpa [EventBus.init])
  refine ⟨h2, ?_⟩
  rw [EventBus.drain, h1]
  rw [drainGo_spec _ _ _ (le_refl _)]
  simp [EventBus.init]

/-- C2 witness: three events, one literal subscriber on "a", one on "b", one
wildcard subscriber. -/
theorem eventbus_single_worker_delivery_witness :
    (EventBus.publishAll
        (EventBus.init [("a", [1]), ("b", [2]), ("*", [9])] 10 5 .drop)
        [("a", 100), ("b", 101), ("a", 102)]).2 = List.replicate 3 true ∧
    (EventBus.drain
        (EventBus.publishAll
          (EventBus.init [("a", [1]), ("b", [2]), ("*", [9])] 10 5 .drop)
          [("a", 100), ("b", 101), ("a", 102)]).1).2 =
      [(1, "a", 100), (9, "a", 100), (2, "b", 101), (9, "b", 101),
       (1, "a", 102), (9, "a", 102)] := by
  obtain ⟨h1, h2⟩ :=
    eventbus_single_worker_delivery [("a", [1]), ("b", [2]), ("*", [9])] 10 5 .drop
      [("a", 100), ("b", 101), ("a", 102)] (by decide)
  exact ⟨h1, by rw [h2]; rfl⟩

/-! ## Association-list lemmas shared by the WorldState claims -/

/-- `str` on a Python string is the identity. -/
theorem pyStr_eq_self (v : PyVal) (h : v.isPyStr = true) : pyStr v = v := by
  cases v <;> first | rfl | simp [PyVal.isPyStr] at h

/-- Looking up the key just assigned. -/
theorem dGet?_dInsert_self {α : Type} (d : List (String × α)) (k : String) (v : α) :
    dGet? (dInsert d k v) k = some v := by
  induction d with
  | nil => simp [dInsert, dGet?]
  | cons p rest ih =>
      obtain ⟨k', v'⟩ := p
      by_cases hp : k' = k
      · simp [dInsert, dGet?, hp]
      · simp [dInsert, dGet?, hp, ih]

/-- Assigning one key leaves every other key's binding unchanged. -/
theorem dGet?_dInsert_ne {α : Type} (d : List (String × α)) (k k' : String) (v : α)
    (h : k ≠ k') :
    dGet? (dInsert d k v) k' = dGet? d k' := by
  induction d with
  | nil => simp [dInsert, dGet?, h]
  | cons p rest ih =>
      obtain ⟨k0, v0⟩ := p
      by_cases hp : k0 = k
      · subst hp; simp [dInsert, dGet?, h]
      · simp [dInsert, dGet?, hp, ih]

/-- An assigned key is present. -/
theorem dMember_dInsert_self {α : Type} (d : List (String × α)) (k : String) (v : α) :
    dMember (dInsert d k v) k = true := by
  simp [dMember, dGet?_dInsert_self]

/-- Absence of a key is absence of a binding. -/
theorem dMember_false_iff {α : Type} (d : List (String × α)) (k : String) :
    dMember d k = false ↔ dGet? d k = none := by
  cases h : dGet? d k <;> simp [dMember, h]

/-! ## C3 — serialization round trip -/

/-- C3 counterexample: `sC3` is a well-typed `WorldState` whose
`timeline_id` is a UUID object (exactly what `initialize` constructs), and
`from_dict(to_dict(sC3))` is *not* equal to `sC3`: `to_dict` renders the
UUID as a string and `from_dict` keeps the string (`TimelineID(...)` is a
`NewType`, the identity at runtime), so the `timeline_id` fields differ. -/
theorem roundtrip_not_identity_on_uuid :
    sC3.validB = true ∧
    sC3.timeline_id = PyVal.uuid 7 ∧
    (WorldState.from_dict sC3.to_dict 0).isSome = true ∧
    WorldState.from_dict sC3.to_dict 0 ≠ some sC3 := by decide

/-- C3 (amended): for every valid `WorldState s`,
`from_dict(to_dict(s))` reconstructs `s` exactly on every field *except*
`timeline_id`, which comes back as its string rendering `str(s.timeline_id)`
(so the round trip is the identity precisely when `timeline_id` was already
a string). -/
theorem to_dict_from_dict_roundtrip (s : WorldState) (now : Int)
    (h : s.validB = true) :
    WorldState.from_dict s.to_dict now =
      some { s with timeline_id := pyStr s.timeline_id } := by
  obtain ⟨sv, ct, scid, tlid, era, loc, es, tc, sd, ca, ua⟩ := s
  simp only [WorldState.validB, Bool.and_eq_true, beq_iff_eq] at h
  obtain ⟨⟨⟨⟨⟨⟨hct, hscid⟩, htl⟩, hera⟩, hloc⟩, hsv⟩, hes⟩ := h
  rcases ct with s0 | n0 | u0 | i0 | u1 | t <;> simp [PyVal.isDatetime] at hct
  subst hsv
  have e1 : pyStr scid = scid := pyStr_eq_self _ hscid
  have e2 : pyStr era = era := pyStr_eq_self _ hera
  have e3 : pyStr loc = loc := pyStr_eq_self _ hloc
  calc
    WorldState.from_dict
        (WorldState.to_dict
          ⟨WORLD_STATE_VERSION, .datetime t, scid, tlid, era, loc, es, tc, sd, ca, ua⟩)
        now
        = some ⟨WORLD_STATE_VERSION, .datetime t, pyStr scid, pyStr tlid,
                pyStr era, pyStr loc, es, tc, sd, ca, ua⟩ := rfl
    _ = some ⟨WORLD_STATE_VERSION, .datetime t, scid, pyStr tlid,
              era, loc, es, tc, sd, ca, ua⟩ := by rw [e1, e2, e3]

/-- C3 witness: the amended round trip at the concrete state `sC3`. -/
theorem to_dict_from_dict_roundtrip_witness :
    WorldState.from_dict sC3.to_dict 0 =
      some { sC3 with timeline_id := pyStr sC3.timeline_id } :=
  to_dict_from_dict_roundtrip sC3 0 (by decide)

/-! ## C4 — version-0 migration -/

/-- A migration step touches no key other than `state_version`. -/
theorem migrate_step_preserves (data : StateDict) (cur : Int) (k : String)
    (hk : k ≠ "state_version") :
    dGet? (WorldState.migrate_step data cur) k = dGet? data k := by
  simp only [WorldState.migrate_step]
  by_cases h0 : cur = 0 ∧ cur + 1 = 1
  · rw [if_pos h0]
    by_cases hm : dMember data "state_version" = true
    · rw [if_pos hm]
    · rw [if_neg hm, dGet?_dInsert_ne _ _ _ _ (Ne.symm hk)]
  · rw [if_neg h0, dGet?_dInsert_ne _ _ _ _ (Ne.symm hk)]

/-- The whole migration loop touches no key other than `state_version`. -/
theorem migrate_loop_preserves (fuel : Nat) :
    ∀ (data : StateDict) (cur tov : Int) (k : String), k ≠ "state_version" →
      dGet? (WorldState.migrate_loop fuel data cur tov) k = dGet? data k := by
  induction fuel with
  | zero => intro data cur tov k _; rfl
  | succ n ih =>
      intro data cur tov k hk
      by_cases hc : cur < tov
      · simp only [WorldState.migrate_loop, if_pos hc]
        rw [ih _ _ _ _ hk, migrate_step_preserves _ _ _ hk]
      · simp only [WorldState.migrate_loop, if_neg hc]

/-- One fuelled iteration of the migration loop. -/
theorem migrate_loop_one (data : StateDict) (cur tov : Int) :
    WorldState.migrate_loop 1 data cur tov =
      if cur < tov then WorldState.migrate_step data cur else data := rfl

/-- Migrating a payload *without* a `state_version` key from version 0 adds
the key at the current version. -/
theorem migrate_state_zero_one_absent (d : StateDict)
    (h : dMember d "state_version" = false) :
    WorldState.migrate_state d 0 WORLD_STATE_VERSION =
      dInsert d "state_version" (.val (.vint 1)) := by
  show WorldState.migrate_loop 1 d 0 1 = _
  rw [migrate_loop_one, if_pos (by norm_num : (0 : Int) < 1)]
  simp [WorldState.migrate_step, h]

/-- C4 counterexample: a payload carrying an *explicit* `state_version` of 0
(`dC4`) loads successfully but keeps schema version 0 — the 0→1 migration
step only adds the field when it is missing — so the loaded state's version
is not the current `WORLD_STATE_VERSION`, contradicting the claim for this
version-0 payload. -/
theorem migrate_version0_explicit_zero_kept :
    dGet? dC4 "state_version" = some (.val (.vint 0)) ∧
    (WorldState.from_dict dC4 0).map WorldState.state_version = some 0 ∧
    (WorldState.from_dict dC4 0).map WorldState.state_version ≠
      some WORLD_STATE_VERSION := by decide

/-- C4 (amended): loading a version-0 payload that *lacks* the
`state_version` key yields a state at the current `WORLD_STATE_VERSION`
(a payload with an explicit `state_version` of 0 instead keeps version 0);
every key other than `state_version` is preserved unchanged by migration;
and a version step with no explicit transformation still advances the stored
version by one. -/
theorem migrate_version0_spec :
    (∀ (d : StateDict) (now : Int) (st : WorldState),
        dMember d "state_version" = false →
        WorldState.from_dict d now = some st →
        st.state_version = WORLD_STATE_VERSION) ∧
    (∀ (d : StateDict) (fv tv : Int) (k : String), k ≠ "state_version" →
        dGet? (WorldState.migrate_state d fv tv) k = dGet? d k) ∧
    (∀ (d : StateDict) (v : Int), 1 ≤ v →
        WorldState.migrate_state d v (v + 1) =
          dInsert d "state_version" (.val (.vint (v + 1)))) := by
  refine ⟨?_, ?_, ?_⟩
  · intro d now st hmem hfd
    have h0 : dGet? d "state_version" = none := (dMember_false_iff d _).mp hmem
    simp only [WorldState.from_dict] at hfd
    rw [show WorldState.getIntField d "state_version" (some 0) = some 0 by
          simp [WorldState.getIntField, h0]] at hfd
    simp only [Option.bind_eq_bind, Option.some_bind] at hfd
    rw [if_pos (by norm_num [WORLD_STATE_VERSION] : (0 : Int) < WORLD_STATE_VERSION),
      migrate_state_zero_one_absent d hmem,
      dMember_dInsert_self d "state_version" (.val (.vint 1))] at hfd
    rw [if_pos (rfl : true = true)] at hfd
    rw [show WorldState.getIntField (dInsert d "state_version" (.val (.vint 1)))
          "state_version" none = some 1 by
          simp [WorldState.getIntField, dGet?_dInsert_self]] at hfd
    simp only [Option.bind_eq_bind, Option.some_bind, Option.bind_eq_some,
      Option.pure_def, Option.some.injEq] at hfd
    obtain ⟨ct, -, scid, -, tl, -, er, -, lo, -, es, -, tc, -, sd, -, ca, -, ua, -,
      hfin⟩ := hfd
    rw [← hfin]
    rfl
  · intro d fv tv k hk
    exact migrate_loop_preserves _ d fv tv k hk
  · intro d v hv
    have hne : ¬ (v = 0 ∧ v + 1 = 1) := by omega
    have hfuel : (v + 1 - v).toNat = 1 := by omega
    rw [WorldState.migrate_state, hfuel, migrate_loop_one,
      if_pos (by omega : v < v + 1)]
    simp only [WorldState.migrate_step]
    rw [if_neg hne]

/-- C4 witness: the amended behaviour at concrete payloads. -/
theorem migrate_version0_spec_witness :
    (⟨1, .datetime 3, .vstr "s", .uuidStr 9, .vstr "1900", .vstr "Paris",
      [], 0, 42, 0, 0⟩ : WorldState).state_version = WORLD_STATE_VERSION ∧
    dGet? (WorldState.migrate_state dC4 5 9) "era" = dGet? dC4 "era" ∧
    WorldState.migrate_state dC4 3 (3 + 1) =
      dInsert dC4 "state_version" (.val (.vint (3 + 1))) :=
  ⟨migrate_version0_spec.1 dC4b 0 _ (by decide) (by decide),
   migrate_version0_spec.2.1 dC4 5 9 "era" (by decide),
   migrate_version0_spec.2.2 dC4 3 (by decide)⟩

/-! ## C5 — diff and patch -/

/-- Filtering cannot create a binding for an absent key. -/
theorem dGet?_filter_none {α : Type} (p : String × α → Bool) :
    ∀ (d : List (String × α)) (k : String), dGet? d k = none →
      dGet? (d.filter p) k = none := by
  intro d
  induction d with
  | nil => intro k _; rfl
  | cons q rest ih =>
      intro k h
      obtain ⟨k0, v0⟩ := q
      by_cases hk : k0 = k
      · simp [dGet?, hk] at h
      · simp only [dGet?, if_neg hk] at h
        by_cases hp : p (k0, v0) = true
        · rw [List.filter_cons_of_pos hp]
          simp only [dGet?, if_neg hk]
          exact ih k h
        · rw [List.filter_cons_of_neg (by simp [hp])]
          exact ih k h

/-- On a dict with distinct keys, looking a key up in a filtered dict keeps
the binding exactly when the filter keeps the entry. -/
theorem dGet?_filter {α : Type} (p : String × α → Bool) :
    ∀ (d : List (String × α)) (k : String) (v : α),
      keysNodup d = true → dGet? d k = some v →
      dGet? (d.filter p) k = if p (k, v) = true then some v else none := by
  intro d
  induction d with
  | nil => intro k v _ h; simp [dGet?] at h
  | cons q rest ih =>
      intro k v hnd h
      obtain ⟨k0, v0⟩ := q
      simp only [keysNodup, Bool.and_eq_true] at hnd
      obtain ⟨hm, hnd'⟩ := hnd
      by_cases hk : k0 = k
      · subst hk
        simp only [dGet?, if_pos rfl] at h
        injection h with h
        rw [← h]
        have hrest : dGet? rest k0 = none :=
          (dMember_false_iff _ _).mp (by simpa using hm)
        by_cases hp : p (k0, v0) = true
        · rw [List.filter_cons_of_pos hp]
          simp [dGet?, hp]
        · rw [List.filter_cons_of_neg hp]
          rw [dGet?_filter_none p rest k0 hrest]
          simp [hp]
      · simp only [dGet?, if_neg hk] at h
        by_cases hp0 : p (k0, v0) = true
        · rw [List.filter_cons_of_pos hp0]
          simp only [dGet?, if_neg hk]
          exact ih k v hnd' h
        · rw [List.filter_cons_of_neg hp0]
          exact ih k v hnd' h

/-- Filtering preserves key distinctness. -/
theorem keysNodup_filter {α : Type} (p : String × α → Bool) :
    ∀ d : List (String × α), keysNodup d = true →
      keysNodup (d.filter p) = true := by
  intro d
  induction d with
  | nil => intro _; rfl
  | cons q rest ih =>
      intro h
      obtain ⟨k0, v0⟩ := q
      simp only [keysNodup, Bool.and_eq_true] at h
      obtain ⟨hm, hnd⟩ := h
      by_cases hp : p (k0, v0) = true
      · rw [List.filter_cons_of_pos hp]
        simp only [keysNodup, Bool.and_eq_true]
        refine ⟨?_, ih hnd⟩
        have h0 : dGet? rest k0 = none :=
          (dMember_false_iff _ _).mp (by simpa using hm)
        simp [dMember, dGet?_filter_none p rest k0 h0]
      · rw [List.filter_cons_of_neg (by simp [hp])]
        exact ih hnd

/-- Folding assignments over entries that do not bind `k` leaves `k`'s
binding in the accumulator unchanged. -/
theorem dGet?_fold_insert_notmem {α : Type} :
    ∀ (es t : List (String × α)) (k : String), dGet? es k = none →
      dGet? (es.foldl (fun acc p => dInsert acc p.1 p.2) t) k = dGet? t k := by
  intro es
  induction es with
  | nil => intro t k _; rfl
  | cons q rest ih =>
      intro t k h
      obtain ⟨k0, v0⟩ := q
      by_cases hk : k0 = k
      · simp [dGet?, hk] at h
      · simp only [dGet?, if_neg hk] at h
        simp only [List.foldl_cons]
        rw [ih _ k h, dGet?_dInsert_ne _ _ _ _ hk]

/-- Folding assignments of entries with distinct keys makes each entry's
binding win in the result. -/
theorem dGet?_fold_insert_mem {α : Type} :
    ∀ (es t : List (String × α)) (k : String) (v : α),
      keysNodup es = true → dGet? es k = some v →
      dGet? (es.foldl (fun acc p => dInsert acc p.1 p.2) t) k = some v := by
  intro es
  induction es with
  | nil => intro t k v _ h; simp [dGet?] at h
  | cons q rest ih =>
      intro t k v hnd h
      obtain ⟨k0, v0⟩ := q
      simp only [keysNodup, Bool.and_eq_true] at hnd
      obtain ⟨hm, hnd'⟩ := hnd
      by_cases hk : k0 = k
      · subst hk
        simp only [dGet?, if_pos rfl] at h
        injection h with h
        subst h
        have hrest : dGet? rest k0 = none :=
          (dMember_false_iff _ _).mp (by simpa using hm)
        simp only [List.foldl_cons]
        rw [dGet?_fold_insert_notmem rest _ k0 hrest, dGet?_dInsert_self]
      · simp only [dGet?, if_neg hk] at h
        simp only [List.foldl_cons]
        exact ih _ k v hnd' h

/-- C5 counterexample: `aC5` and `bC5` are valid states that differ exactly
on `era`, a field `create_diff` never compares; the diff is empty, so
applying it to a copy of `bC5` yields a state that still carries `bC5`'s era
— not `aC5`'s — although `era` is a field on which the two states differ. -/
theorem create_apply_diff_misses_era :
    aC5.validB = true ∧ bC5.validB = true ∧
    aC5.era ≠ bC5.era ∧
    aC5.create_diff bC5 = [] ∧
    WorldState.apply_diff (aC5.create_diff bC5) bC5 3 =
      some { bC5 with updated_at := 3 } ∧
    ({ bC5 with updated_at := 3 } : WorldState).era ≠ aC5.era := by decide

/-- C5 (amended): applying `create_diff(a, b)` to a copy of `b` restores `a`
on exactly the fields the diff covers — `current_time`, `current_location`,
`tick_count`, and every engine entry present in `a.engine_states` — but not
on the remaining top-level fields (version, scenario, timeline, era, seed,
timestamps), which keep `b`'s values. -/
theorem create_apply_diff_restores (a b : WorldState) (now : Int)
    (ha : a.validB = true) (_hb : b.validB = true) :
    ∃ r, WorldState.apply_diff (a.create_diff b) b now = some r ∧
      r.current_time = a.current_time ∧
      r.current_location = a.current_location ∧
      r.tick_count = a.tick_count ∧
      (∀ (k : String) (v : PyVal), dGet? a.engine_states k = some v →
        dGet? r.engine_states k = some v) := by
  simp only [WorldState.validB, Bool.and_eq_true, beq_iff_eq] at ha
  obtain ⟨⟨⟨⟨⟨⟨hact, _⟩, _⟩, _⟩, haloc⟩, _⟩, hand⟩ := ha
  obtain ⟨ta, hcta⟩ : ∃ t, a.current_time = .datetime t := by
    rcases hct : a.current_time <;> rw [hct] at hact <;>
      simp [PyVal.isDatetime] at hact
    exact ⟨_, rfl⟩
  have hdt : dGet? (a.create_diff b) "current_time" =
      (if a.current_time = b.current_time then none
       else some (.val (WorldState.serTime a.current_time))) := by
    rw [WorldState.create_diff]
    by_cases h1 : a.current_time = b.current_time <;>
      by_cases h2 : a.current_location = b.current_location <;>
        by_cases h3 : a.tick_count = b.tick_count <;>
          by_cases h4 : WorldState.engineDiffs a b = [] <;>
            simp [h1, h2, h3, h4, dInsert, dGet?]
  have hdl : dGet? (a.create_diff b) "current_location" =
      (if a.current_location = b.current_location then none
       else some (.val (pyStr a.current_location))) := by
    rw [WorldState.create_diff]
    by_cases h1 : a.current_time = b.current_time <;>
      by_cases h2 : a.current_location = b.current_location <;>
        by_cases h3 : a.tick_count = b.tick_count <;>
          by_cases h4 : WorldState.engineDiffs a b = [] <;>
            simp [h1, h2, h3, h4, dInsert, dGet?]
  have hdk : dGet? (a.create_diff b) "tick_count" =
      (if a.tick_count = b.tick_count then none
       else some (.val (.vint a.tick_count))) := by
    rw [WorldState.create_diff]
    by_cases h1 : a.current_time = b.current_time <;>
      by_cases h2 : a.current_location = b.current_location <;>
        by_cases h3 : a.tick_count = b.tick_count <;>
          by_cases h4 : WorldState.engineDiffs a b = [] <;>
            simp [h1, h2, h3, h4, dInsert, dGet?]
  have hde : dGet? (a.create_diff b) "engine_states" =
      (if WorldState.engineDiffs a b = [] then none
       else some (.dict (WorldState.engineDiffs a b))) := by
    rw [WorldState.create_diff]
    by_cases h1 : a.current_time = b.current_time <;>
      by_cases h2 : a.current_location = b.current_location <;>
        by_cases h3 : a.tick_count = b.tick_count <;>
          by_cases h4 : WorldState.engineDiffs a b = [] <;>
            simp [h1, h2, h3, h4, dInsert, dGet?]
  have s1 : WorldState.applyTimeStep (a.create_diff b) b =
      some { b with current_time := a.current_time } := by
    rw [WorldState.applyTimeStep, hdt]
    by_cases h1 : a.current_time = b.current_time
    · rw [if_pos h1, h1]
    · rw [if_neg h1, hcta]
      rfl
  have s2 : ∀ tg : WorldState, tg.current_location = b.current_location →
      WorldState.applyLocStep (a.create_diff b) tg =
        some { tg with current_location := a.current_location } := by
    intro tg htg
    rw [WorldState.applyLocStep, hdl]
    by_cases h2 : a.current_location = b.current_location
    · rw [if_pos h2, h2, ← htg]
    · rw [if_neg h2, pyStr_eq_self _ haloc]
  have s3 : ∀ tg : WorldState, tg.tick_count = b.tick_count →
      WorldState.applyTickStep (a.create_diff b) tg =
        some { tg with tick_count := a.tick_count } := by
    intro tg htg
    rw [WorldState.applyTickStep, hdk]
    by_cases h3 : a.tick_count = b.tick_count
    · rw [if_pos h3, h3, ← htg]
    · rw [if_neg h3]
  have s4 : ∀ tg : WorldState,
      WorldState.applyEngineStep (a.create_diff b) tg =
        some { tg with engine_states :=
          ((WorldState.engineDiffs a b).foldl
            (fun es p => dInsert es p.1 p.2) tg.engine_states) } := by
    intro tg
    rw [WorldState.applyEngineStep, hde]
    by_cases h4 : WorldState.engineDiffs a b = []
    · rw [if_pos h4, h4]
      rfl
    · rw [if_neg h4]
  refine ⟨({ b with
      current_time := a.current_time
      current_location := a.current_location
      tick_count := a.tick_count
      engine_states := ((WorldState.engineDiffs a b).foldl
        (fun es p => dInsert es p.1 p.2) b.engine_states)
      updated_at := now } : WorldState), ?_, ?_, ?_, ?_, ?_⟩
  · rw [WorldState.apply_diff]
    simp only [Option.bind_eq_bind]
    rw [s1, Option.some_bind]
    rw [s2 ({ b with current_time := a.current_time }) rfl, Option.some_bind]
    rw [s3 ({ b with current_time := a.current_time, current_location := a.current_location }) rfl,
      Option.some_bind]
    rw [s4 ({ b with current_time := a.current_time, current_location := a.current_location, tick_count := a.tick_count }),
      Option.some_bind]
    rfl
  · rfl
  · rfl
  · rfl
  · intro k v hav
    show dGet? ((WorldState.engineDiffs a b).foldl
        (fun es p => dInsert es p.1 p.2) b.engine_states) k = some v
    by_cases hbv : dGet? b.engine_states k = some v
    · have hnone : dGet? (WorldState.engineDiffs a b) k = none := by
        rw [WorldState.engineDiffs,
          dGet?_filter _ a.engine_states k v hand hav]
        simp [hbv]
      rw [dGet?_fold_insert_notmem _ _ k hnone, hbv]
    · have hsome : dGet? (WorldState.engineDiffs a b) k = some v := by
        rw [WorldState.engineDiffs,
          dGet?_filter _ a.engine_states k v hand hav]
        simp [hbv]
      exact dGet?_fold_insert_mem _ _ k v
        (keysNodup_filter _ a.engine_states hand) hsome

/-- C5 witness: the amended restoration at concrete states differing on
time, tick count and an engine entry. -/
theorem create_apply_diff_restores_witness :
    ∃ r, WorldState.apply_diff
        ((⟨1, .datetime 9, .vstr "s", .uuid 1, .vstr "1900", .vstr "Q",
           [("eco", .vint 7)], 4, 42, 0, 0⟩ : WorldState).create_diff aC5) aC5 5 =
      some r ∧
      r.current_time =
        (⟨1, .datetime 9, .vstr "s", .uuid 1, .vstr "1900", .vstr "Q",
          [("eco", .vint 7)], 4, 42, 0, 0⟩ : WorldState).current_time ∧
      r.current_location =
        (⟨1, .datetime 9, .vstr "s", .uuid 1, .vstr "1900", .vstr "Q",
          [("eco", .vint 7)], 4, 42, 0, 0⟩ : WorldState).current_location ∧
      r.tick_count =
        (⟨1, .datetime 9, .vstr "s", .uuid 1, .vstr "1900", .vstr "Q",
          [("eco", .vint 7)], 4, 42, 0, 0⟩ : WorldState).tick_count ∧
      (∀ (k : String) (v : PyVal),
        dGet? (⟨1, .datetime 9, .vstr "s", .uuid 1, .vstr "1900", .vstr "Q",
          [("eco", .vint 7)], 4, 42, 0, 0⟩ : WorldState).engine_states k = some v →
        dGet? r.engine_states k = some v) :=
  create_apply_diff_restores
    ⟨1, .datetime 9, .vstr "s", .uuid 1, .vstr "1900", .vstr "Q",
     [("eco", .vint 7)], 4, 42, 0, 0⟩ aC5 5 (by decide) (by decide)

end EarthSim
